import Mathlib

/-!
Verification of the blog-api delayed-publication scheduler and post service.

The development shallowly embeds the Go sources:
  * `model.Post` and `repository.PostFilter` (fields as used throughout the
    repository; Go `time.Time` is modelled as `Nat`, a nil `*time.Time` as
    `none`, and the zero time as `some 0`; `t.After u` is `u < t`),
  * `InMemoryPostRepo` from `internal/repository/mock_repo.go` (the store of
    the Go map is modelled as a list of posts with unique ids; Go's unstable
    `sort.Slice` by `CreatedAt` descending is modelled as an insertion sort,
    one admissible outcome of the unstable sort),
  * the `publish_at` filter of `PostRepo.applyFilters` from
    `internal/repository/post_repo.go` (SQL comparison with a NULL column is
    false),
  * `PostService` creation/update/read logic from the service sources,
  * `StartPostScheduler` as a labelled small-step transition system, one
    label per atomic action of the Go code (tick fetch, per-post enqueue,
    worker receive/publish, worker exit, loop shutdown).
-/

namespace Blog

/-- The post record (`model.Post` as used by the repository and services).
Times are `Nat`; `publishAt = none` models a nil `*time.Time`. -/
structure Post where
  id        : Nat
  title     : String
  content   : String
  authorID  : Nat
  published : Bool
  publishAt : Option Nat
  createdAt : Nat
  updatedAt : Nat
deriving DecidableEq

/-- Optional filters for fetching posts (`repository.PostFilter`). -/
structure PostFilter where
  authorID  : Option Nat  := none
  published : Option Bool := none
  dueBefore : Option Nat  := none
deriving DecidableEq

/-- The three skip-tests of `InMemoryPostRepo.GetPosts` (mock_repo.go): a post
is kept when every present filter field matches.  Note the `DueBefore` test:
the Go code skips a post only when `post.PublishAt != nil` and
`post.PublishAt.After(*filter.DueBefore)`, so a post with a nil `publishAt`
passes the due filter. -/
def matchesFilter (f : PostFilter) (p : Post) : Bool :=
  (match f.authorID with
   | none => true
   | some a => p.authorID == a) &&
  (match f.published with
   | none => true
   | some b => p.published == b) &&
  (match f.dueBefore with
   | none => true
   | some d =>
     match p.publishAt with
     | none => true
     | some t => !(decide (d < t)))

/-- The filter of `PostRepo.applyFilters` (post_repo.go), the SQL-backed
repository: `publish_at <= ?` is false when `publish_at` is NULL, so a post
with a nil `publishAt` is excluded by the due filter, unlike in
`InMemoryPostRepo`. -/
def pgMatchesFilter (f : PostFilter) (p : Post) : Bool :=
  (match f.authorID with
   | none => true
   | some a => p.authorID == a) &&
  (match f.published with
   | none => true
   | some b => p.published == b) &&
  (match f.dueBefore with
   | none => true
   | some d =>
     match p.publishAt with
     | none => false
     | some t => decide (t ≤ d))

/-- One insertion step of the sort used by `InMemoryPostRepo.GetPosts`:
`sort.Slice(result, result[i].CreatedAt.After(result[j].CreatedAt))`, i.e.
`createdAt` descending (newest-created first). -/
def insertByCreatedDesc (p : Post) : List Post → List Post
  | [] => [p]
  | q :: qs =>
    if q.createdAt < p.createdAt then p :: q :: qs
    else q :: insertByCreatedDesc p qs

/-- Sort by `createdAt` descending, one admissible outcome of Go's unstable
`sort.Slice`. -/
def sortByCreatedDesc (l : List Post) : List Post :=
  l.foldr insertByCreatedDesc []

/-- Keep the posts matched by an optional filter (`filter == nil` keeps all). -/
def filterPosts (store : List Post) (f : Option PostFilter) : List Post :=
  store.filter fun p =>
    match f with
    | none => true
    | some flt => matchesFilter flt p

/-- `InMemoryPostRepo.GetPosts` (mock_repo.go): filter, sort by `createdAt`
descending, then page.  `offset >= len(result)` yields the empty page;
otherwise the page is `result[offset:end]` with `end = offset + limit`
clamped to `len(result)` and a non-positive limit meaning "to the end".
The Go function never returns an error; a negative offset would make the copy
loop index out of range and never occurs in the repository (the scheduler
passes 0 and handlers validate), so `offset : Nat`. -/
def getPosts (store : List Post) (f : Option PostFilter) (limit : Int)
    (offset : Nat) : List Post :=
  let result := sortByCreatedDesc (filterPosts store f)
  if result.length ≤ offset then []
  else
    let e : Nat :=
      if limit ≤ 0 ∨ (result.length : Int) < (offset : Int) + limit
      then result.length
      else offset + limit.toNat
    (result.take e).drop offset

/-- `InMemoryPostRepo.GetPostsCount` (mock_repo.go). -/
def getPostsCount (store : List Post) (f : Option PostFilter) : Nat :=
  (filterPosts store f).length

/-- Lookup in the Go map `r.posts` keyed by id (the store is a list with
unique ids). -/
def lookupPost (store : List Post) (id : Nat) : Option Post :=
  store.find? fun p => p.id == id

/-- `InMemoryPostRepo.GetPost` (mock_repo.go): map lookup, then the same three
filter tests as `GetPosts`, each failure returning `ErrPostNotFound` (`none`
here). -/
def getPost (store : List Post) (id : Nat) (f : Option PostFilter) :
    Option Post :=
  match lookupPost store id with
  | none => none
  | some post =>
    if (match f with
        | none => true
        | some flt => matchesFilter flt post)
    then some post
    else none

/-- The map assignment `r.posts[post.ID] = post` on the list model: replace
the entry whose id matches. -/
def replaceInStore (store : List Post) (newp : Post) : List Post :=
  store.map fun q => if q.id == newp.id then newp else q

/-- `InMemoryPostRepo.Update` (mock_repo.go): `ErrPostNotFound` (`none`) when
the id is absent; otherwise the stored entry is replaced by the argument with
`createdAt` carried over from the existing entry and `updatedAt` set to the
current time. -/
def updatePost (store : List Post) (post : Post) (now : Nat) :
    Option (List Post) :=
  match lookupPost store post.id with
  | none => none
  | some existing =>
    some (replaceInStore store
      { post with createdAt := existing.createdAt, updatedAt := now })

/-- The store ids are pairwise distinct (they are the keys of the Go map). -/
def uniqueIds (store : List Post) : Prop :=
  (store.map Post.id).Nodup

instance (store : List Post) : Decidable (uniqueIds store) := by
  unfold uniqueIds; infer_instance

/-- Repository state: the id sequence and the stored posts
(`InMemoryPostRepo`). -/
structure RepoState where
  seq   : Nat
  posts : List Post
deriving DecidableEq

/-- `InMemoryPostRepo.Create` (mock_repo.go): assign the next id, stamp
`createdAt` and `updatedAt` with the current time, insert.  Never errors. -/
def repoCreate (s : RepoState) (post : Post) (now : Nat) : RepoState × Post :=
  let p := { post with id := s.seq + 1, createdAt := now, updatedAt := now }
  ({ seq := s.seq + 1, posts := s.posts ++ [p] }, p)

/-- `model.PostCreateRequest` (fields used by `PostService.Create`). -/
structure PostCreateRequest where
  title     : String
  content   : String
  publishAt : Option Nat := none
deriving DecidableEq

/-- `model.PostUpdateRequest`: every field is a pointer, `none` meaning "not
supplied".  A supplied `publishAt` is a non-nil pointer to a time. -/
structure PostUpdateRequest where
  title     : Option String := none
  content   : Option String := none
  publishAt : Option Nat    := none
deriving DecidableEq

/-- Service-level errors surfaced by `PostService`. -/
inductive ServiceError
  | notFound
  | forbidden
deriving DecidableEq

/-- The `published` flag computed by `PostService.Create`: true iff
`PublishAt == nil || PublishAt.IsZero() || !PublishAt.After(time.Now())`. -/
def publishedOnCreate (publishAt : Option Nat) (now : Nat) : Bool :=
  match publishAt with
  | none => true
  | some t => decide (t = 0) || !(decide (now < t))

/-- `PostService.Create`: build the post, force the `published` flag from
`publishAt` and the current time, persist via `repoCreate`.  The mock
repository never errors, so creation always succeeds. -/
def serviceCreate (s : RepoState) (userID : Nat) (req : PostCreateRequest)
    (now : Nat) : RepoState × Post :=
  let post : Post :=
    { id := 0
      title := req.title
      content := req.content
      authorID := userID
      published := publishedOnCreate req.publishAt now
      publishAt := req.publishAt
      createdAt := 0
      updatedAt := 0 }
  repoCreate s post now

/-- The title block of `PostService.Update`: apply a supplied, differing
title; returns the post and the `updated` flag. -/
def mergeTitle (post : Post) (req : PostUpdateRequest) : Post × Bool :=
  match req.title with
  | none => (post, false)
  | some t =>
    if t ≠ post.title then ({ post with title := t }, true)
    else (post, false)

/-- The content block of `PostService.Update`. -/
def mergeContent (pu : Post × Bool) (req : PostUpdateRequest) : Post × Bool :=
  match req.content with
  | none => pu
  | some c =>
    if c ≠ pu.1.content then ({ pu.1 with content := c }, true)
    else pu

/-- The `publishAt` block of `PostService.Update`: when the request supplies
`publishAt`, install it and recompute `published` (false iff the supplied
time is strictly in the future). -/
def mergePublishAt (pu : Post × Bool) (req : PostUpdateRequest) (now : Nat) :
    Post × Bool :=
  match req.publishAt with
  | none => pu
  | some t =>
    ({ pu.1 with publishAt := some t, published := !(decide (now < t)) },
      true)

/-- The field merge of `PostService.Update`: the three request-field blocks
in source order. -/
def applyUpdateRequest (post : Post) (req : PostUpdateRequest) (now : Nat) :
    Post × Bool :=
  mergePublishAt (mergeContent (mergeTitle post req) req) req now

/-- `PostService.Update`: fetch without filter, ownership check, merge the
request, and persist only when something changed.  The mock `Update` stamps
`UpdatedAt` (and re-reads `CreatedAt`, unchanged by the merge) on the very
post the service then returns, hence the `updatedAt := now` on the returned
post of the persisting branch. -/
def serviceUpdate (s : RepoState) (id userID : Nat) (req : PostUpdateRequest)
    (now : Nat) : Except ServiceError (RepoState × Post) :=
  match lookupPost s.posts id with
  | none => .error .notFound
  | some post =>
    if post.authorID ≠ userID then .error .forbidden
    else
      let (post, updated) := applyUpdateRequest post req now
      if !updated then .ok (s, post)
      else
        match updatePost s.posts post now with
        | none => .error .notFound
        | some posts =>
          .ok ({ s with posts := posts }, { post with updatedAt := now })

/-- `PostService.GetByID`: repository `GetPost` with the filter
`published = true`; `ErrPostNotFound` both for a missing id and for an
unpublished post. -/
def serviceGetByID (store : List Post) (id : Nat) : Except ServiceError Post :=
  match getPost store id (some { published := some true }) with
  | none => .error .notFound
  | some p => .ok p

/-- `PostService.GetAll`: repository `GetPosts` and `GetPostsCount` with the
filter `published = true`. -/
def serviceGetAll (store : List Post) (limit : Int) (offset : Nat) :
    List Post × Nat :=
  (getPosts store (some { published := some true }) limit offset,
   getPostsCount store (some { published := some true }))

/-! ## The scheduler (`StartPostScheduler`)

The scheduler is one poll-loop goroutine and `SchedulerWorkers` worker
goroutines sharing a buffered channel of capacity `SchedulerBufferSize`.  It
is modelled as a labelled transition system whose labels are the atomic
actions of the Go code; the Due-Item Source is the in-memory repository.  Go
`select` picks any ready case, so a step is enabled whenever its Go case is
ready, independently of the other cases. -/

def SchedulerWorkers : Nat := 5
def SchedulerBufferSize : Nat := 1000
def SchedulerMaxJobQueueSize : Nat := 500

/-- The filter built on each tick:
`{Published: false, DueBefore: now}`. -/
def dueFilter (now : Nat) : PostFilter :=
  { published := some false, dueBefore := some now }

/-- The fetch of one tick: `repo.GetPosts(ctx, dueFilter, 100, 0)`. -/
def fetchDue (store : List Post) (now : Nat) : List Post :=
  getPosts store (some (dueFilter now)) 100 0

/-- Scheduler state.  `pending` holds the posts of the current tick not yet
pushed (the loop is inside `PushJobs`); `queue` is the buffered channel;
`closed` means `close(jobs)` has run; `waiting` means the loop took the
`ctx.Done()` case of its outer select (it closed the queue and sits in
`wg.Wait()`); `workers` counts workers that have not returned. -/
structure SchedState where
  store     : List Post
  queue     : List Post
  pending   : List Post
  closed    : Bool
  cancelled : Bool
  waiting   : Bool
  workers   : Nat
  returned  : Bool
deriving DecidableEq

/-- Labels: one per atomic action of `StartPostScheduler`. -/
inductive SchedLabel
  | cancel
  | tick (now : Nat)
  | fetchFail (now : Nat)
  | enqueue (p : Post) (warn : Bool)
  | dispatchCancel
  | observeCancel
  | workerTake (p : Post) (now : Nat) (ok : Bool)
  | workerExitClosed
  | workerExitCancel
  | ret
deriving DecidableEq

/-- The state at the top of `StartPostScheduler`: empty channel, no pending
dispatch, `SchedulerWorkers` workers started. -/
def initState (store : List Post) : SchedState :=
  { store := store
    queue := []
    pending := []
    closed := false
    cancelled := false
    waiting := false
    workers := SchedulerWorkers
    returned := false }

/-- One atomic action of `StartPostScheduler`.

* `cancel` — the surrounding context is cancelled.
* `tick` — the loop takes the `ticker.C` case (it must be at its outer
  select: no pending dispatch, not waiting, not returned) and the fetch
  succeeds; the fetched page becomes the pending dispatch list.
* `fetchFail` — same case but `repo.GetPosts` errors: logged, `continue`.
* `enqueue` — inside `PushJobs`, `jobs <- post` for the next pending post;
  ready only while the buffer is below capacity.  The label records whether
  the post-enqueue occupancy check `len(jobs) > SchedulerMaxJobQueueSize`
  logs the backlog warning.
* `dispatchCancel` — inside `PushJobs`, the `ctx.Done()` case: `break`,
  abandoning the rest of the page.
* `observeCancel` — the loop takes the `ctx.Done()` case of its outer
  select: `close(jobs)` and enter `wg.Wait()`.
* `workerTake` — a worker receives a buffered job (ready also after `close`
  while jobs remain buffered, and also when the context is cancelled, since
  `select` picks any ready case), sets `Published = true` and calls
  `repo.Update`; `ok = true` persists per `updatePost`, `ok = false` is a
  failed update leaving the store untouched (the worker only logs).
* `workerExitClosed` — a worker receives from the closed empty channel
  (`ok == false` in Go) and returns.
* `workerExitCancel` — a worker takes its `ctx.Done()` case and returns,
  regardless of buffered jobs.
* `ret` — `wg.Wait()` unblocks (all workers returned) and the function
  returns. -/
inductive SchedStep : SchedState → SchedLabel → SchedState → Prop
  | cancel (s : SchedState) :
      s.cancelled = false →
      SchedStep s .cancel { s with cancelled := true }
  | tick (s : SchedState) (now : Nat) :
      s.waiting = false → s.returned = false → s.pending = [] →
      SchedStep s (.tick now) { s with pending := fetchDue s.store now }
  | fetchFail (s : SchedState) (now : Nat) :
      s.waiting = false → s.returned = false → s.pending = [] →
      SchedStep s (.fetchFail now) s
  | enqueue (s : SchedState) (p : Post) (rest : List Post) :
      s.pending = p :: rest → s.queue.length < SchedulerBufferSize →
      SchedStep s
        (.enqueue p (decide (SchedulerMaxJobQueueSize < s.queue.length + 1)))
        { s with pending := rest, queue := s.queue ++ [p] }
  | dispatchCancel (s : SchedState) :
      s.cancelled = true → s.pending ≠ [] →
      SchedStep s .dispatchCancel { s with pending := [] }
  | observeCancel (s : SchedState) :
      s.cancelled = true → s.pending = [] → s.waiting = false →
      s.returned = false →
      SchedStep s .observeCancel { s with closed := true, waiting := true }
  | workerTakeOk (s : SchedState) (p : Post) (rest : List Post) (now : Nat)
      (store' : List Post) :
      0 < s.workers → s.queue = p :: rest →
      updatePost s.store { p with published := true } now = some store' →
      SchedStep s (.workerTake p now true)
        { s with queue := rest, store := store' }
  | workerTakeFail (s : SchedState) (p : Post) (rest : List Post) (now : Nat) :
      0 < s.workers → s.queue = p :: rest →
      SchedStep s (.workerTake p now false) { s with queue := rest }
  | workerExitClosed (s : SchedState) :
      0 < s.workers → s.closed = true → s.queue = [] →
      SchedStep s .workerExitClosed { s with workers := s.workers - 1 }
  | workerExitCancel (s : SchedState) :
      0 < s.workers → s.cancelled = true →
      SchedStep s .workerExitCancel { s with workers := s.workers - 1 }
  | ret (s : SchedState) :
      s.waiting = true → s.workers = 0 → s.returned = false →
      SchedStep s .ret { s with returned := true }

/-- Reachability in the scheduler transition system. -/
inductive SchedReach : SchedState → SchedState → Prop
  | refl (s : SchedState) : SchedReach s s
  | step {s t u : SchedState} {l : SchedLabel} :
      SchedReach s t → SchedStep t l u → SchedReach s u

/-- The cumulative effect on the store of workers publishing each job of a
fetched page in order (each job is one `Published = true` plus
`repo.Update`); a failed update leaves the store as it was. -/
def publishAll (store : List Post) (jobs : List Post) (now : Nat) :
    List Post :=
  jobs.foldl (fun st p =>
    match updatePost st { p with published := true } now with
    | none => st
    | some st' => st') store

/-- A job agrees with a stored post on everything except the mutable
`published` flag and the repository-stamped `updatedAt`.  Jobs are copies of
stored posts taken at fetch time, so this is exactly what survives a later
publish of the same post. -/
def agreesExceptPub (j q : Post) : Prop :=
  j.id = q.id ∧ j.title = q.title ∧ j.content = q.content ∧
  j.publishAt = q.publishAt ∧ j.authorID = q.authorID ∧
  j.createdAt = q.createdAt

/-- Control-flow invariant of the poll loop: once the loop has taken the
`ctx.Done()` case of its outer select it has no pending dispatch, the queue
is closed and the context is cancelled; once the function has returned, the
loop was in its shutdown phase and every worker had exited. -/
def loopInv (s : SchedState) : Prop :=
  (s.waiting = true → s.pending = [] ∧ s.closed = true ∧ s.cancelled = true) ∧
  (s.returned = true → s.waiting = true ∧ s.workers = 0)

/-- Data invariant of the scheduler: store ids stay unique, and every job
still pending or buffered agrees (up to `published`/`updatedAt`) with the
currently stored post of its id. -/
def jobsInv (s : SchedState) : Prop :=
  uniqueIds s.store ∧
  ∀ j ∈ s.pending ++ s.queue, ∀ q, lookupPost s.store j.id = some q →
    agreesExceptPub j q

/-! ### Concrete instances used by witnesses and counterexamples -/

/-- A due post: unpublished, `publishAt` in the past of the ticks used below. -/
def cDuePost : Post :=
  { id := 1, title := "t", content := "c", authorID := 1, published := false,
    publishAt := some 5, createdAt := 0, updatedAt := 0 }

/-- An unpublished post with a nil `publishAt`. -/
def cNilPost : Post :=
  { id := 1, title := "t", content := "c", authorID := 1, published := false,
    publishAt := none, createdAt := 0, updatedAt := 0 }

/-- An already-published post. -/
def cPubPost : Post :=
  { id := 1, title := "t", content := "c", authorID := 1, published := true,
    publishAt := some 5, createdAt := 0, updatedAt := 0 }

/-- Scheduler state after `cDuePost` was fetched and buffered and the context
was cancelled, with `n` workers still alive. -/
def c1w (n : Nat) : SchedState :=
  { store := [cDuePost], queue := [cDuePost], pending := [], closed := false,
    cancelled := true, waiting := false, workers := n, returned := false }

/-- Scheduler state of the C1 counterexample after the loop has returned:
the buffered job was never consumed. -/
def c1Final : SchedState :=
  { store := [cDuePost], queue := [cDuePost], pending := [], closed := true,
    cancelled := true, waiting := true, workers := 0, returned := true }

/-- Scheduler state with `cDuePost` fetched and buffered, nothing cancelled. -/
def cQueuedState : SchedState :=
  { store := [cDuePost], queue := [cDuePost], pending := [], closed := false,
    cancelled := false, waiting := false, workers := 5, returned := false }

/-- Scheduler state with the nil-`publishAt` post fetched and buffered. -/
def cNilQueuedState : SchedState :=
  { store := [cNilPost], queue := [cNilPost], pending := [], closed := false,
    cancelled := false, waiting := false, workers := 5, returned := false }

/-- A due post with the given id and creation time (`publishAt = 1`). -/
def mkDuePost (id createdAt : Nat) : Post :=
  { id := id, title := "", content := "", authorID := 1, published := false,
    publishAt := some 1, createdAt := createdAt, updatedAt := 0 }

/-- 150 due posts with distinct creation times. -/
def c3Store150 : List Post :=
  (List.range 150).map fun i => mkDuePost (i + 1) i

/-- 101 due posts; post `i + 1` was created at time `i` and became due at
time `i + 1`, so creation order and due order coincide. -/
def c3Store101 : List Post :=
  (List.range 101).map fun i =>
    { id := i + 1, title := "", content := "", authorID := 1,
      published := false, publishAt := some (i + 1), createdAt := i,
      updatedAt := 0 }

/-- The oldest (first-created, first-due) post of `c3Store101`. -/
def c3OldPost : Post :=
  { id := 1, title := "", content := "", authorID := 1, published := false,
    publishAt := some 1, createdAt := 0, updatedAt := 0 }

/-- The newest (last-created, last-due) post of `c3Store101`. -/
def c3NewPost : Post :=
  { id := 101, title := "", content := "", authorID := 1, published := false,
    publishAt := some 101, createdAt := 100, updatedAt := 0 }

/-- The stored value produced when a worker publishes job `p` over existing
entry `existing` at time `now`: the job with `Published = true`, `createdAt`
carried over by the repository and `updatedAt` stamped. -/
def publishedPost (p existing : Post) (now : Nat) : Post :=
  { p with
    published := true
    createdAt := existing.createdAt
    updatedAt := now }

/-- Repository state holding one delayed post (`cDuePost`, created with a
then-future `publishAt` of 5). -/
def c4State : RepoState := { seq := 1, posts := [cDuePost] }

/-- A title-only update request (no `publishAt` supplied). -/
def c4Req : PostUpdateRequest := { title := some "X" }

/-- Initial scheduler state over the one-due-post store. -/
def c1s0 : SchedState := initState [cDuePost]

/-- After one tick at time 10: the due post is pending dispatch. -/
def c1s1 : SchedState := { c1s0 with pending := [cDuePost] }

/-- A shutdown-phase state over the empty store (context cancelled, queue
closed, loop in `wg.Wait()`). -/
def c1wState : SchedState :=
  { store := [], queue := [], pending := [], closed := true,
    cancelled := true, waiting := true, workers := 5, returned := false }

/-- `cNilPost` published at time 11. -/
def cNilPublished : Post := { cNilPost with published := true, updatedAt := 11 }

/-- State after a worker publishes the nil-`publishAt` post. -/
def c2After : SchedState :=
  { cNilQueuedState with queue := [], store := [cNilPublished] }

/-- `cDuePost` published at time 20. -/
def cDuePublished : Post := { cDuePost with published := true, updatedAt := 20 }

/-- State after a worker publishes `cDuePost` at time 20. -/
def c6After : SchedState :=
  { cQueuedState with queue := [], store := [cDuePublished] }

/-- State after a worker's update of `cDuePost` fails: job consumed, store
untouched. -/
def c7After : SchedState := { cQueuedState with queue := [] }

/-- Empty repository. -/
def c4InitState : RepoState := { seq := 0, posts := [] }

/-- Creation request with a future `publishAt`. -/
def c4FutureReq : PostCreateRequest :=
  { title := "a", content := "b", publishAt := some 30 }

/-- Update request supplying a future `publishAt`. -/
def c4PAReq : PostUpdateRequest := { publishAt := some 50 }

/-- The post returned by updating `cDuePost` with `c4PAReq` at time 10. -/
def c4UpdPost : Post :=
  { cDuePost with publishAt := some 50, published := false, updatedAt := 10 }

/-- Repository state after that update. -/
def c4UpdState : RepoState := { seq := 1, posts := [c4UpdPost] }

/-- The post returned by updating `cDuePost` with the title-only `c4Req` at
time 10. -/
def c4TitlePost : Post := { cDuePost with title := "X", updatedAt := 10 }

/-- Repository state after the title-only update. -/
def c4TitleState : RepoState := { seq := 1, posts := [c4TitlePost] }

/-! ## Repository lemmas -/

theorem mem_insertByCreatedDesc {a p : Post} {l : List Post} :
    a ∈ insertByCreatedDesc p l ↔ a = p ∨ a ∈ l := by
  induction l with
  | nil => simp [insertByCreatedDesc]
  | cons q qs ih =>
    simp only [insertByCreatedDesc]
    split
    · simp
    · simp only [List.mem_cons, ih]
      tauto

theorem mem_sortByCreatedDesc {a : Post} {l : List Post} :
    a ∈ sortByCreatedDesc l ↔ a ∈ l := by
  induction l with
  | nil => simp [sortByCreatedDesc]
  | cons q qs ih =>
    show a ∈ insertByCreatedDesc q (sortByCreatedDesc qs) ↔ _
    rw [mem_insertByCreatedDesc]
    simp [ih]

theorem length_insertByCreatedDesc (p : Post) (l : List Post) :
    (insertByCreatedDesc p l).length = l.length + 1 := by
  induction l with
  | nil => rfl
  | cons q qs ih =>
    simp only [insertByCreatedDesc]
    split <;> simp [ih]

theorem length_sortByCreatedDesc (l : List Post) :
    (sortByCreatedDesc l).length = l.length := by
  induction l with
  | nil => rfl
  | cons q qs ih =>
    show (insertByCreatedDesc q (sortByCreatedDesc qs)).length = _
    rw [length_insertByCreatedDesc, ih, List.length_cons]

/-- With a positive limit and offset 0, `GetPosts` is the first `limit`
entries of the sorted matching list. -/
theorem getPosts_eq_take (store : List Post) (f : Option PostFilter)
    (limit : Int) (hl : 0 < limit) :
    getPosts store f limit 0 =
      (sortByCreatedDesc (filterPosts store f)).take limit.toNat := by
  simp only [getPosts]
  set result := sortByCreatedDesc (filterPosts store f) with hres
  by_cases h0 : result.length ≤ 0
  · have h1 : result = [] := List.eq_nil_of_length_eq_zero (Nat.le_zero.mp h0)
    rw [if_pos h0, h1, List.take_nil]
  · rw [if_neg h0, List.drop_zero]
    by_cases hlen : (result.length : Int) < ((0 : Nat) : Int) + limit
    · rw [if_pos (Or.inr hlen), List.take_of_length_le (Nat.le_refl _),
        List.take_of_length_le (by omega)]
    · rw [if_neg (by omega), Nat.zero_add]

/-- Members of a `GetPosts` page match the filter and live in the store. -/
theorem mem_of_mem_getPosts {store : List Post} {flt : PostFilter}
    {limit : Int} {offset : Nat} {p : Post}
    (h : p ∈ getPosts store (some flt) limit offset) :
    p ∈ store ∧ matchesFilter flt p = true := by
  have hmem : p ∈ sortByCreatedDesc (filterPosts store (some flt)) := by
    simp only [getPosts] at h
    split at h
    · simp at h
    · exact List.mem_of_mem_take (List.mem_of_mem_drop h)
  rw [mem_sortByCreatedDesc] at hmem
  unfold filterPosts at hmem
  have := List.mem_filter.mp hmem
  exact ⟨this.1, this.2⟩

/-- When at most `limit` posts match, the page at offset 0 contains every
matching post of the store. -/
theorem mem_getPosts_of_count_le {store : List Post} {flt : PostFilter}
    {limit : Int} {p : Post} (hp : p ∈ store)
    (hm : matchesFilter flt p = true) (hl : 0 < limit)
    (hc : (filterPosts store (some flt)).length ≤ limit.toNat) :
    p ∈ getPosts store (some flt) limit 0 := by
  rw [getPosts_eq_take _ _ _ hl]
  have hlen : (sortByCreatedDesc (filterPosts store (some flt))).length ≤
      limit.toNat := by
    rw [length_sortByCreatedDesc]; exact hc
  rw [List.take_of_length_le hlen, mem_sortByCreatedDesc]
  unfold filterPosts
  exact List.mem_filter.mpr ⟨hp, hm⟩

/-- In a store with unique ids, lookup of a member's id finds that member. -/
theorem lookupPost_of_mem {store : List Post} {p : Post}
    (hu : uniqueIds store) (hp : p ∈ store) :
    lookupPost store p.id = some p := by
  induction store with
  | nil => cases hp
  | cons q qs ih =>
    unfold uniqueIds at hu
    simp only [List.map_cons, List.nodup_cons] at hu
    by_cases hq : q.id = p.id
    · rcases List.mem_cons.mp hp with rfl | htail
      · exact List.find?_cons_of_pos _ (by simp)
      · exact absurd (hq ▸ List.mem_map_of_mem Post.id htail) hu.1
    · rcases List.mem_cons.mp hp with rfl | htail
      · exact absurd rfl hq
      · rw [show lookupPost (q :: qs) p.id =
            lookupPost qs p.id from
            List.find?_cons_of_neg _ (by simpa using hq)]
        exact ih hu.2 htail

/-- Replacing an id present in the store makes lookup of that id return the
replacement. -/
theorem lookup_replaceInStore_self {store : List Post} {newp existing : Post}
    (hex : lookupPost store newp.id = some existing) :
    lookupPost (replaceInStore store newp) newp.id = some newp := by
  induction store with
  | nil => simp [lookupPost] at hex
  | cons q qs ih =>
    simp only [replaceInStore, List.map_cons, lookupPost] at *
    by_cases hq : (q.id == newp.id) = true
    · rw [if_pos hq]
      exact List.find?_cons_of_pos _ (by simp)
    · rw [if_neg hq]
      rw [List.find?_cons_of_neg _ (by exact hq)]
      rw [List.find?_cons_of_neg _ (by exact hq)] at hex
      exact ih hex

/-- Replacing one id leaves lookups of every other id unchanged. -/
theorem lookup_replaceInStore_other {store : List Post} {newp : Post} {i : Nat}
    (hi : ¬ i = newp.id) :
    lookupPost (replaceInStore store newp) i = lookupPost store i := by
  induction store with
  | nil => rfl
  | cons q qs ih =>
    simp only [replaceInStore, List.map_cons, lookupPost] at *
    by_cases hq : (q.id == newp.id) = true
    · rw [if_pos hq]
      have hq' : q.id = newp.id := by simpa using hq
      have h1 : ¬ (newp.id == i) = true := by
        simp only [beq_iff_eq]
        exact fun h => hi h.symm
      have h2 : ¬ (q.id == i) = true := by
        simp only [beq_iff_eq, hq']
        exact fun h => hi h.symm
      rw [List.find?_cons_of_neg _ (by exact h1),
        List.find?_cons_of_neg _ (by exact h2)]
      exact ih
    · rw [if_neg hq]
      by_cases hqi : (q.id == i) = true
      · rw [List.find?_cons_of_pos _ (by exact hqi),
          List.find?_cons_of_pos _ (by exact hqi)]
      · rw [List.find?_cons_of_neg _ (by exact hqi),
          List.find?_cons_of_neg _ (by exact hqi)]
        exact ih

/-- Effect of a successful `InMemoryPostRepo.Update` on lookups: the target id
now maps to the argument (with `createdAt` carried over from the existing
entry and `updatedAt` stamped), every other id is untouched. -/
theorem lookup_updatePost {store store' : List Post} {post existing : Post}
    {now : Nat}
    (hex : lookupPost store post.id = some existing)
    (hupd : updatePost store post now = some store') :
    lookupPost store' post.id =
      some { post with createdAt := existing.createdAt, updatedAt := now } ∧
    ∀ i, ¬ i = post.id → lookupPost store' i = lookupPost store i := by
  unfold updatePost at hupd
  rw [hex] at hupd
  have hst : store' = replaceInStore store
      { post with createdAt := existing.createdAt, updatedAt := now } :=
    (Option.some_inj.mp hupd).symm
  subst hst
  exact ⟨lookup_replaceInStore_self hex,
    fun i hi => lookup_replaceInStore_other hi⟩

/-- Replacing a post keeps the stored id sequence, hence id uniqueness. -/
theorem map_id_replaceInStore (store : List Post) (newp : Post) :
    (replaceInStore store newp).map Post.id = store.map Post.id := by
  induction store with
  | nil => rfl
  | cons q qs ih =>
    simp only [replaceInStore, List.map_cons] at *
    by_cases hq : (q.id == newp.id) = true
    · have hid : q.id = newp.id := by simpa using hq
      rw [if_pos hq, ih, hid]
    · rw [if_neg hq, ih]

theorem uniqueIds_replaceInStore {store : List Post} {newp : Post}
    (hu : uniqueIds store) : uniqueIds (replaceInStore store newp) := by
  unfold uniqueIds
  rw [map_id_replaceInStore]
  exact hu

/-- The characterisation of the in-memory due filter: unpublished, and
`publishAt` nil or past. -/
theorem matchesFilter_due {now : Nat} {p : Post} :
    matchesFilter (dueFilter now) p = true ↔
      p.published = false ∧
        (p.publishAt = none ∨ ∃ t, p.publishAt = some t ∧ t ≤ now) := by
  unfold matchesFilter dueFilter
  cases hpa : p.publishAt with
  | none => simp
  | some t =>
    simp only [Bool.and_eq_true, beq_iff_eq, Bool.not_eq_true',
      decide_eq_false_iff_not, Nat.not_lt, true_and]
    constructor
    · rintro ⟨h1, h2⟩
      exact ⟨h1, Or.inr ⟨t, rfl, h2⟩⟩
    · rintro ⟨h1, h2 | ⟨u, hu, hle⟩⟩
      · cases h2
      · cases hu
        exact ⟨h1, hle⟩

/-- The characterisation of the SQL due filter: unpublished, `publishAt`
non-NULL and past. -/
theorem pgMatchesFilter_due {now : Nat} {p : Post} :
    pgMatchesFilter (dueFilter now) p = true ↔
      p.published = false ∧ ∃ t, p.publishAt = some t ∧ t ≤ now := by
  unfold pgMatchesFilter dueFilter
  cases hpa : p.publishAt with
  | none => simp
  | some t =>
    simp only [Bool.and_eq_true, beq_iff_eq, decide_eq_true_eq, true_and]
    constructor
    · rintro ⟨h1, h2⟩
      exact ⟨h1, t, rfl, h2⟩
    · rintro ⟨h1, u, hu, hle⟩
      cases hu
      exact ⟨h1, hle⟩

/-- A post due at `now` stays due at any later time. -/
theorem matchesFilter_due_mono {p : Post} {now now' : Nat}
    (h : matchesFilter (dueFilter now) p = true) (hle : now ≤ now') :
    matchesFilter (dueFilter now') p = true := by
  rw [matchesFilter_due] at h ⊢
  obtain ⟨h1, h2 | ⟨t, ht, htle⟩⟩ := h
  · exact ⟨h1, Or.inl h2⟩
  · exact ⟨h1, Or.inr ⟨t, ht, le_trans htle hle⟩⟩

/-! ## Scheduler invariants -/

theorem loopInv_init (store₀ : List Post) : loopInv (initState store₀) := by
  constructor <;> intro h <;> cases h

theorem loopInv_step {s s' : SchedState} {l : SchedLabel}
    (hinv : loopInv s) (hstep : SchedStep s l s') : loopInv s' := by
  obtain ⟨h1, h2⟩ := hinv
  cases hstep with
  | cancel hc =>
    exact ⟨fun hw => ⟨(h1 hw).1, (h1 hw).2.1, rfl⟩, fun hr => h2 hr⟩
  | tick now hw hr hp =>
    exact ⟨fun hw' => absurd hw' (by simp [hw]),
      fun hr' => absurd hr' (by simp [hr])⟩
  | fetchFail now hw hr hp =>
    exact ⟨fun hw' => absurd hw' (by simp [hw]),
      fun hr' => absurd hr' (by simp [hr])⟩
  | enqueue p rest hpend hlen =>
    refine ⟨fun hw' => absurd hpend ?_, fun hr' => h2 hr'⟩
    rw [(h1 hw').1]
    simp
  | dispatchCancel hc hpend =>
    exact ⟨fun hw' => ⟨rfl, (h1 hw').2.1, hc⟩, fun hr' => h2 hr'⟩
  | observeCancel hc hpend hw hr =>
    exact ⟨fun hw' => ⟨hpend, rfl, hc⟩, fun hr' => absurd hr' (by simp [hr])⟩
  | workerTakeOk p rest now store' hwk hq hupd =>
    refine ⟨fun hw' => h1 hw', fun hr' => absurd ((h2 hr').2) ?_⟩
    omega
  | workerTakeFail p rest now hwk hq =>
    exact ⟨fun hw' => h1 hw', fun hr' => h2 hr'⟩
  | workerExitClosed hwk hcl hq =>
    refine ⟨fun hw' => h1 hw', fun hr' => ⟨(h2 hr').1, ?_⟩⟩
    have := (h2 hr').2
    omega
  | workerExitCancel hwk hc =>
    refine ⟨fun hw' => h1 hw', fun hr' => ⟨(h2 hr').1, ?_⟩⟩
    have := (h2 hr').2
    omega
  | ret hw hwk hr =>
    exact ⟨fun hw' => h1 hw', fun hr' => ⟨hw, hwk⟩⟩

theorem loopInv_reach {store₀ : List Post} {s : SchedState}
    (h : SchedReach (initState store₀) s) : loopInv s := by
  induction h with
  | refl => exact loopInv_init store₀
  | step hr hstep ih => exact loopInv_step ih hstep

/-- Once the loop is in its shutdown phase with no pending dispatch, every
step keeps it there. -/
theorem waiting_preserved {s s' : SchedState} {l : SchedLabel}
    (hw : s.waiting = true) (hp : s.pending = [])
    (hstep : SchedStep s l s') : s'.waiting = true ∧ s'.pending = [] := by
  cases hstep <;> simp_all

theorem waiting_reach {s s' : SchedState} (hw : s.waiting = true)
    (hp : s.pending = []) (h : SchedReach s s') :
    s'.waiting = true ∧ s'.pending = [] := by
  induction h with
  | refl => exact ⟨hw, hp⟩
  | step hr hstep ih => exact waiting_preserved ih.1 ih.2 hstep

/-- No enqueue can fire from a state without pending dispatch. -/
theorem no_enqueue_of_pending_nil {s t : SchedState} {p : Post} {w : Bool}
    (hp : s.pending = []) : ¬ SchedStep s (.enqueue p w) t := by
  intro h
  cases h
  simp_all

/-- Unfolding of a successful `updatePost`: an existing entry was found and
the store is the keyed replacement. -/
theorem updatePost_some_spec {store store' : List Post} {post : Post}
    {now : Nat} (hupd : updatePost store post now = some store') :
    ∃ existing, lookupPost store post.id = some existing ∧
      store' = replaceInStore store
        { post with createdAt := existing.createdAt, updatedAt := now } := by
  unfold updatePost at hupd
  cases hex : lookupPost store post.id with
  | none => rw [hex] at hupd; cases hupd
  | some existing =>
    rw [hex] at hupd
    exact ⟨existing, rfl, (Option.some_inj.mp hupd).symm⟩

theorem jobsInv_init {store₀ : List Post} (hu : uniqueIds store₀) :
    jobsInv (initState store₀) := by
  refine ⟨hu, fun j hj => ?_⟩
  simp [initState] at hj

theorem jobsInv_step {s s' : SchedState} {l : SchedLabel}
    (hinv : jobsInv s) (hstep : SchedStep s l s') : jobsInv s' := by
  obtain ⟨hu, hjobs⟩ := hinv
  cases hstep with
  | cancel hc => exact ⟨hu, hjobs⟩
  | fetchFail now hw hr hp => exact ⟨hu, hjobs⟩
  | observeCancel hc hpend hw hr => exact ⟨hu, hjobs⟩
  | workerExitClosed hwk hcl hqe => exact ⟨hu, hjobs⟩
  | workerExitCancel hwk hc => exact ⟨hu, hjobs⟩
  | ret hw hwk hr => exact ⟨hu, hjobs⟩
  | tick now hw hr hp =>
    refine ⟨hu, fun j hj q hq => ?_⟩
    rcases List.mem_append.mp hj with hj1 | hj2
    · obtain ⟨hjs, hmatch⟩ := mem_of_mem_getPosts
        (show j ∈ getPosts s.store (some (dueFilter now)) 100 0 from hj1)
      rw [lookupPost_of_mem hu hjs] at hq
      cases hq
      exact ⟨rfl, rfl, rfl, rfl, rfl, rfl⟩
    · refine hjobs j ?_ q hq
      rw [hp]
      exact List.mem_append.mpr (Or.inr hj2)
  | enqueue p rest hpend hlen =>
    refine ⟨hu, fun j hj q hq => ?_⟩
    refine hjobs j ?_ q hq
    rw [hpend]
    rcases List.mem_append.mp hj with hj1 | hj2
    · exact List.mem_append.mpr (Or.inl (List.mem_cons_of_mem _ hj1))
    · rcases List.mem_append.mp hj2 with hj3 | hj4
      · exact List.mem_append.mpr (Or.inr hj3)
      · have hjp : j = p := by simpa using hj4
        subst hjp
        exact List.mem_append.mpr (Or.inl (List.mem_cons_self _ _))
  | workerTakeFail p rest now hwk hqq =>
    refine ⟨hu, fun j hj q hq => ?_⟩
    refine hjobs j ?_ q hq
    rw [hqq]
    rcases List.mem_append.mp hj with hj1 | hj2
    · exact List.mem_append.mpr (Or.inl hj1)
    · exact List.mem_append.mpr (Or.inr (List.mem_cons_of_mem _ hj2))
  | dispatchCancel hc hpend =>
    refine ⟨hu, fun j hj q hq => ?_⟩
    refine hjobs j ?_ q hq
    have hj2 : j ∈ s.queue := by simpa using hj
    exact List.mem_append.mpr (Or.inr hj2)
  | workerTakeOk p rest now store' hwk hqq hupd =>
    have hpmem : p ∈ s.pending ++ s.queue := by
      rw [hqq]
      exact List.mem_append.mpr (Or.inr (List.mem_cons_self _ _))
    obtain ⟨existing, hex, hst⟩ := updatePost_some_spec hupd
    have hex' : lookupPost s.store p.id = some existing := hex
    have hst' : store' = replaceInStore s.store (publishedPost p existing now) :=
      hst
    subst hst'
    have hpex : agreesExceptPub p existing := hjobs p hpmem existing hex'
    refine ⟨uniqueIds_replaceInStore hu, fun j hj q hq => ?_⟩
    have hjold : j ∈ s.pending ++ s.queue := by
      rw [hqq]
      rcases List.mem_append.mp hj with hj1 | hj2
      · exact List.mem_append.mpr (Or.inl hj1)
      · exact List.mem_append.mpr (Or.inr (List.mem_cons_of_mem _ hj2))
    by_cases hid : j.id = p.id
    · have hself : lookupPost
          (replaceInStore s.store (publishedPost p existing now))
          (publishedPost p existing now).id =
          some (publishedPost p existing now) :=
        lookup_replaceInStore_self hex'
      have hq2 : lookupPost
          (replaceInStore s.store (publishedPost p existing now))
          (publishedPost p existing now).id = some q := by
        rw [show (publishedPost p existing now).id = p.id from rfl, ← hid]
        exact hq
      obtain rfl : publishedPost p existing now = q :=
        Option.some_inj.mp (hself.symm.trans hq2)
      obtain ⟨a1, a2, a3, a4, a5, a6⟩ :=
        hjobs j hjold existing (by rw [hid]; exact hex')
      obtain ⟨b1, b2, b3, b4, b5, b6⟩ := hpex
      exact ⟨hid, a2.trans b2.symm, a3.trans b3.symm, a4.trans b4.symm,
        a5.trans b5.symm, a6⟩
    · have hother : lookupPost
          (replaceInStore s.store (publishedPost p existing now)) j.id =
          lookupPost s.store j.id :=
        lookup_replaceInStore_other
          (show ¬ j.id = (publishedPost p existing now).id from hid)
      rw [hother] at hq
      exact hjobs j hjold q hq

theorem jobsInv_reach {store₀ : List Post} {s : SchedState}
    (hu : uniqueIds store₀) (h : SchedReach (initState store₀) s) :
    jobsInv s := by
  induction h with
  | refl => exact jobsInv_init hu
  | step hr hstep ih => exact jobsInv_step ih hstep

/-! ## Claims -/

/-- C1 (amended): after the poll loop observes the cancellation signal in its
outer select, it dispatches no further job and stays in its shutdown phase,
and `StartPostScheduler` returns only after every worker has exited.  The
original claim also required every already-buffered job to be consumed before
the workers exit; that part is false — each worker selects between the queue
and `ctx.Done()`, so a worker may exit on cancellation leaving buffered jobs
unconsumed (see the counterexample). -/
theorem c1_shutdown_amended {store₀ : List Post} {s : SchedState}
    (hs : SchedReach (initState store₀) s) :
    (s.returned = true → s.workers = 0) ∧
    (s.waiting = true → ∀ s', SchedReach s s' →
      s'.waiting = true ∧
      ∀ (p : Post) (w : Bool) (t : SchedState),
        ¬ SchedStep s' (.enqueue p w) t) := by
  refine ⟨fun hr => ((loopInv_reach hs).2 hr).2, fun hw s' hs' => ?_⟩
  have hp : s.pending = [] := ((loopInv_reach hs).1 hw).1
  obtain ⟨hw', hp'⟩ := waiting_reach hw hp hs'
  exact ⟨hw', fun p w t => no_enqueue_of_pending_nil hp'⟩

/-- C1 (witness): the amended shutdown theorem applied to a concrete
shutdown-phase state reached from the empty store. -/
theorem c1_shutdown_witness :
    (c1wState.returned = true → c1wState.workers = 0) ∧
    (c1wState.waiting = true → ∀ s', SchedReach c1wState s' →
      s'.waiting = true ∧
      ∀ (p : Post) (w : Bool) (t : SchedState),
        ¬ SchedStep s' (.enqueue p w) t) :=
  c1_shutdown_amended
    (SchedReach.step
      (SchedReach.step (SchedReach.refl (initState []))
        (SchedStep.cancel (initState []) rfl))
      (SchedStep.observeCancel
        { initState [] with cancelled := true } rfl rfl rfl rfl))

/-- C1 (counterexample): a complete execution in which the scheduler returns
while a job is still buffered: the due post is fetched and buffered, the
context is cancelled, all five workers exit through their `ctx.Done()` case,
the loop closes the queue, waits and returns — the buffered job is never
consumed by any worker. -/
theorem c1_counterexample :
    SchedReach (initState [cDuePost]) c1Final ∧
    c1Final.returned = true ∧ c1Final.queue ≠ [] := by
  refine ⟨?_, rfl, by decide⟩
  have h1 : SchedStep c1s0 (.tick 10) c1s1 := by
    have heq : fetchDue c1s0.store 10 = [cDuePost] := by decide
    have h := SchedStep.tick c1s0 10 rfl rfl rfl
    rw [heq] at h
    exact h
  have h2 : SchedStep c1s1 (.enqueue cDuePost false) cQueuedState :=
    SchedStep.enqueue c1s1 cDuePost [] rfl (by decide)
  have h3 : SchedStep cQueuedState .cancel (c1w 5) :=
    SchedStep.cancel cQueuedState rfl
  have hx : ∀ n, SchedStep (c1w (n + 1)) .workerExitCancel (c1w n) :=
    fun n => SchedStep.workerExitCancel (c1w (n + 1)) (Nat.succ_pos n) rfl
  have h9 : SchedStep (c1w 0) .observeCancel
      { c1w 0 with closed := true, waiting := true } :=
    SchedStep.observeCancel (c1w 0) rfl rfl rfl rfl
  have h10 : SchedStep { c1w 0 with closed := true, waiting := true }
      .ret c1Final :=
    SchedStep.ret { c1w 0 with closed := true, waiting := true } rfl rfl rfl
  exact SchedReach.step (SchedReach.step (SchedReach.step (SchedReach.step
    (SchedReach.step (SchedReach.step (SchedReach.step (SchedReach.step
      (SchedReach.step (SchedReach.step (SchedReach.refl c1s0) h1) h2) h3)
      (hx 4)) (hx 3)) (hx 2)) (hx 1)) (hx 0)) h9) h10

/-- C2 (amended): every post handed over by a tick fetch had, at the moment
of the fetch, `published = false` and `publishAt` either nil or `≤ now`: a
post with a strictly future `publishAt` is never dispatched.  The original
claim also said a nil `publishAt` is never dispatched; that is true of the
SQL repository's filter (second conjunct) but false for the in-memory
repository, whose due filter admits nil `publishAt` (see the
counterexample). -/
theorem c2_dispatch_due_amended {s s' : SchedState} {now : Nat}
    (hstep : SchedStep s (.tick now) s') :
    (∀ p ∈ s'.pending, p.published = false ∧
      (p.publishAt = none ∨ ∃ t, p.publishAt = some t ∧ t ≤ now)) ∧
    (∀ p : Post, pgMatchesFilter (dueFilter now) p = true →
      p.published = false ∧ ∃ t, p.publishAt = some t ∧ t ≤ now) := by
  constructor
  · intro p hp
    cases hstep with
    | tick nn hw hr hpe =>
      exact matchesFilter_due.mp
        (mem_of_mem_getPosts
          (show p ∈ getPosts s.store (some (dueFilter now)) 100 0 from hp)).2
  · intro p hp
    exact pgMatchesFilter_due.mp hp

/-- C2 (witness): the amended dispatch invariant applied to the concrete tick
over the one-due-post store. -/
theorem c2_witness :
    (∀ p ∈ c1s1.pending, p.published = false ∧
      (p.publishAt = none ∨ ∃ t, p.publishAt = some t ∧ t ≤ 10)) ∧
    (∀ p : Post, pgMatchesFilter (dueFilter 10) p = true →
      p.published = false ∧ ∃ t, p.publishAt = some t ∧ t ≤ 10) :=
  c2_dispatch_due_amended (s := c1s0) (by
    have heq : fetchDue c1s0.store 10 = [cDuePost] := by decide
    have h := SchedStep.tick c1s0 10 rfl rfl rfl
    rw [heq] at h
    exact h)

/-- C2 (counterexample): an unpublished post with a nil `publishAt` is
fetched by the in-memory due filter, buffered, and handed to a worker — the
original claim said a post with absent `publishAt` is never handed to a
worker. -/
theorem c2_counterexample :
    cNilPost.publishAt = none ∧ cNilPost.published = false ∧
    SchedReach (initState [cNilPost]) cNilQueuedState ∧
    SchedStep cNilQueuedState (.workerTake cNilPost 11 true) c2After := by
  refine ⟨rfl, rfl, ?_, ?_⟩
  · have h1 : SchedStep (initState [cNilPost]) (.tick 10)
        { initState [cNilPost] with pending := [cNilPost] } := by
      have heq : fetchDue (initState [cNilPost]).store 10 = [cNilPost] := by
        decide
      have h := SchedStep.tick (initState [cNilPost]) 10 rfl rfl rfl
      rw [heq] at h
      exact h
    have h2 : SchedStep { initState [cNilPost] with pending := [cNilPost] }
        (.enqueue cNilPost false) cNilQueuedState :=
      SchedStep.enqueue { initState [cNilPost] with pending := [cNilPost] }
        cNilPost [] rfl (by decide)
    exact SchedReach.step (SchedReach.step (SchedReach.refl _) h1) h2
  · exact SchedStep.workerTakeOk cNilQueuedState cNilPost [] 11
      [cNilPublished] (by decide) rfl (by decide)

set_option maxRecDepth 1000000 in
/-- C3 (amended): each tick fetches at most 100 due posts at offset 0, and
the fetched page is the first 100 of the matching posts ordered by
`createdAt` descending — the newest-created page, not the oldest-due one
(see the counterexample).  Given 150 due posts, exactly 100 are fetched on
the first tick and, once those are published, the remaining 50 on a
subsequent tick. -/
theorem c3_page_amended (store : List Post) (now : Nat) :
    (fetchDue store now).length ≤ 100 ∧
    fetchDue store now =
      (sortByCreatedDesc (filterPosts store (some (dueFilter now)))).take 100 ∧
    (fetchDue c3Store150 10).length = 100 ∧
    (fetchDue (publishAll c3Store150 (fetchDue c3Store150 10) 20) 30).length
      = 50 := by
  have h : fetchDue store now =
      (sortByCreatedDesc (filterPosts store (some (dueFilter now)))).take 100 :=
    getPosts_eq_take store (some (dueFilter now)) 100 (by norm_num)
  refine ⟨?_, h, by decide, by decide⟩
  rw [h]
  exact List.length_take_le _ _

set_option maxRecDepth 1000000 in
/-- C3 (counterexample): the fetched page is not the oldest-due page.  Among
101 due posts whose creation order matches their due order, the page at
offset 0 contains the newest-created, latest-due post and omits the
oldest-created, earliest-due one, because `GetPosts` orders by `created_at`
descending. -/
theorem c3_counterexample :
    matchesFilter (dueFilter 1000) c3OldPost = true ∧
    c3OldPost ∈ c3Store101 ∧
    c3OldPost ∉ fetchDue c3Store101 1000 ∧
    c3NewPost ∈ fetchDue c3Store101 1000 ∧
    c3OldPost.createdAt < c3NewPost.createdAt ∧
    c3OldPost.publishAt = some 1 ∧ c3NewPost.publishAt = some 101 := by
  decide

theorem mergeTitle_published (post : Post) (req : PostUpdateRequest) :
    (mergeTitle post req).1.published = post.published := by
  unfold mergeTitle
  cases req.title with
  | none => rfl
  | some t => split <;> first | rfl | (split <;> rfl)

theorem mergeContent_published (pu : Post × Bool) (req : PostUpdateRequest) :
    (mergeContent pu req).1.published = pu.1.published := by
  unfold mergeContent
  cases req.content with
  | none => rfl
  | some c => split <;> first | rfl | (split <;> rfl)

/-- When the request supplies `publishAt`, the merge recomputes `published`
from the supplied value alone. -/
theorem applyUpdate_publishAt_some {post : Post} {req : PostUpdateRequest}
    {now t : Nat} (h : req.publishAt = some t) :
    (applyUpdateRequest post req now).1.published = !(decide (now < t)) := by
  unfold applyUpdateRequest mergePublishAt
  rw [h]

/-- When the request does not supply `publishAt`, the merge leaves
`published` untouched. -/
theorem applyUpdate_publishAt_none {post : Post} {req : PostUpdateRequest}
    {now : Nat} (h : req.publishAt = none) :
    (applyUpdateRequest post req now).1.published = post.published := by
  unfold applyUpdateRequest mergePublishAt
  rw [h, mergeContent_published, mergeTitle_published]

/-- A successful `PostService.Update` returns the merge of the fetched post
with the request (possibly restamped); in particular its `published` flag is
the merge's. -/
theorem serviceUpdate_ok_spec {s : RepoState} {id userID : Nat}
    {req : PostUpdateRequest} {now : Nat} {s' : RepoState} {p' : Post}
    (h : serviceUpdate s id userID req now = .ok (s', p')) :
    ∃ post₀, lookupPost s.posts id = some post₀ ∧
      p'.published = (applyUpdateRequest post₀ req now).1.published := by
  unfold serviceUpdate at h
  split at h
  · cases h
  · rename_i post₀ hex
    refine ⟨post₀, hex, ?_⟩
    split at h
    · cases h
    · split at h
      rename_i post1 updated happ
      split at h
      · cases h
        rw [happ]
      · split at h
        · cases h
        · cases h
          rw [happ]

/-- C4 (amended): on creation, the resulting `published` flag is `false`
exactly when `publishAt` is supplied, non-zero and strictly in the future at
call time.  On update, the same rule is applied only when the request
supplies `publishAt` (judged on the supplied value); an update that does not
supply `publishAt` leaves the `published` flag of the stored post unchanged,
even if the stored `publishAt` has meanwhile passed (see the
counterexample). -/
theorem c4_published_flag_amended :
    (∀ (s : RepoState) (userID : Nat) (req : PostCreateRequest) (now : Nat),
      (serviceCreate s userID req now).2.published = false ↔
        ∃ t, req.publishAt = some t ∧ t ≠ 0 ∧ now < t) ∧
    (∀ (s : RepoState) (id userID : Nat) (req : PostUpdateRequest)
      (now t : Nat) (s' : RepoState) (p' : Post),
      req.publishAt = some t →
      serviceUpdate s id userID req now = .ok (s', p') →
      (p'.published = false ↔ now < t)) ∧
    (∀ (s : RepoState) (id userID : Nat) (req : PostUpdateRequest)
      (now : Nat) (s' : RepoState) (p' : Post),
      req.publishAt = none →
      serviceUpdate s id userID req now = .ok (s', p') →
      ∃ post₀, lookupPost s.posts id = some post₀ ∧
        p'.published = post₀.published) := by
  refine ⟨?_, ?_, ?_⟩
  · intro s userID req now
    show publishedOnCreate req.publishAt now = false ↔ _
    unfold publishedOnCreate
    cases req.publishAt with
    | none => simp
    | some t =>
      simp only [Bool.or_eq_false_iff, decide_eq_false_iff_not,
        Bool.not_eq_false', decide_eq_true_eq, Option.some.injEq]
      constructor
      · rintro ⟨h1, h2⟩
        exact ⟨t, rfl, h1, h2⟩
      · rintro ⟨u, rfl, h1, h2⟩
        exact ⟨h1, h2⟩
  · intro s id userID req now t s' p' hpa hok
    obtain ⟨post₀, hex, hpub⟩ := serviceUpdate_ok_spec hok
    rw [hpub, applyUpdate_publishAt_some hpa]
    simp
  · intro s id userID req now s' p' hpa hok
    obtain ⟨post₀, hex, hpub⟩ := serviceUpdate_ok_spec hok
    exact ⟨post₀, hex, by rw [hpub, applyUpdate_publishAt_none hpa]⟩

/-- C4 (witness): the amended flag rules applied to concrete creations and
updates of the delayed post `cDuePost`. -/
theorem c4_witness :
    ((serviceCreate c4InitState 1 c4FutureReq 10).2.published = false ↔
      ∃ t, c4FutureReq.publishAt = some t ∧ t ≠ 0 ∧ 10 < t) ∧
    (c4UpdPost.published = false ↔ 10 < 50) ∧
    (∃ post₀, lookupPost c4State.posts 1 = some post₀ ∧
      c4TitlePost.published = post₀.published) :=
  ⟨c4_published_flag_amended.1 c4InitState 1 c4FutureReq 10,
   c4_published_flag_amended.2.1 c4State 1 1 c4PAReq 10 50 c4UpdState
     c4UpdPost rfl rfl,
   c4_published_flag_amended.2.2 c4State 1 1 c4Req 10 c4TitleState
     c4TitlePost rfl rfl⟩

/-- C4 (counterexample): a title-only update of a delayed post at time 10,
when its stored `publishAt = 5` is no longer in the future, returns and
persists `published = false`, while the claim requires the resulting flag to
be `true` whenever `publishAt` is absent from the request or not in the
future at call time. -/
theorem c4_counterexample :
    serviceUpdate c4State 1 1 c4Req 10 = .ok (c4TitleState, c4TitlePost) ∧
    c4Req.publishAt = none ∧
    c4TitlePost.publishAt = some 5 ∧ 5 ≤ 10 ∧
    c4TitlePost.published = false :=
  ⟨rfl, rfl, rfl, by decide, rfl⟩

/-- C5 (amended): the publish transition (set `published = true`, persist via
the repository `Update`) applied to a job whose stored post is already
published succeeds (no error) and leaves the stored state unchanged except
for the update timestamp; every other entry is untouched.  The original
claim's "leaves the stored state unchanged" is false to the letter because
`Update` always restamps `updatedAt` (see the counterexample). -/
theorem c5_idempotent_amended {store : List Post} {job q : Post} {now : Nat}
    (hq : lookupPost store job.id = some q)
    (hpub : q.published = true) (hag : agreesExceptPub job q) :
    ∃ store',
      updatePost store { job with published := true } now = some store' ∧
      lookupPost store' job.id = some { q with updatedAt := now } ∧
      ∀ i, ¬ i = job.id → lookupPost store' i = lookupPost store i := by
  obtain ⟨a1, a2, a3, a4, a5, a6⟩ := hag
  have heq : publishedPost job q now = { q with updatedAt := now } := by
    simp [publishedPost, Post.mk.injEq, a1, a2, a3, a4, a5, a6, hpub]
  refine ⟨replaceInStore store (publishedPost job q now), ?_, ?_, ?_⟩
  · unfold updatePost
    rw [show lookupPost store ({ job with published := true } : Post).id =
        some q from hq]
    rfl
  · have hself := lookup_replaceInStore_self
      (show lookupPost store (publishedPost job q now).id = some q from hq)
    rw [← heq]
    exact hself
  · intro i hi
    exact lookup_replaceInStore_other
      (show ¬ i = (publishedPost job q now).id from hi)

/-- C5 (witness): the amended idempotence theorem applied to the concrete
already-published post. -/
theorem c5_witness :
    ∃ store',
      updatePost [cPubPost] { cPubPost with published := true } 7 =
        some store' ∧
      lookupPost store' cPubPost.id = some { cPubPost with updatedAt := 7 } ∧
      ∀ i, ¬ i = cPubPost.id →
        lookupPost store' i = lookupPost [cPubPost] i :=
  c5_idempotent_amended rfl rfl ⟨rfl, rfl, rfl, rfl, rfl, rfl⟩

/-- C5 (counterexample): publishing an already-published post does change the
stored state — the update timestamp is restamped, so the store after the
call differs from the store before it. -/
theorem c5_counterexample :
    cPubPost.published = true ∧
    updatePost [cPubPost] { cPubPost with published := true } 7 =
      some [{ cPubPost with updatedAt := 7 }] ∧
    updatePost [cPubPost] { cPubPost with published := true } 7 ≠
      some [cPubPost] := by
  refine ⟨rfl, rfl, ?_⟩
  decide

/-- C6: when a worker publishes a due post (in any reachable scheduler state
over a store with unique ids), the stored entry of that post changes only in
its `published` flag (set to true) and its `updatedAt` stamp — title,
content, `publishAt`, author and `createdAt` are unchanged — and the entry
of every other id is untouched. -/
theorem c6_publish_frame {store₀ : List Post} {s s' : SchedState} {p : Post}
    {now : Nat} (hu : uniqueIds store₀)
    (hr : SchedReach (initState store₀) s)
    (hstep : SchedStep s (.workerTake p now true) s') :
    ∃ q, lookupPost s.store p.id = some q ∧
      lookupPost s'.store p.id =
        some { q with published := true, updatedAt := now } ∧
      ∀ i, ¬ i = p.id → lookupPost s'.store i = lookupPost s.store i := by
  obtain ⟨huInv, hjobs⟩ := jobsInv_reach hu hr
  cases hstep with
  | workerTakeOk pp rest nn store' hwk hqq hupd =>
    obtain ⟨existing, hex, hst⟩ := updatePost_some_spec hupd
    have hex' : lookupPost s.store p.id = some existing := hex
    have hagree : agreesExceptPub p existing :=
      hjobs p
        (by rw [hqq]
            exact List.mem_append.mpr (Or.inr (List.mem_cons_self _ _)))
        existing hex'
    have hst' : store' =
        replaceInStore s.store (publishedPost p existing now) := hst
    obtain ⟨a1, a2, a3, a4, a5, a6⟩ := hagree
    refine ⟨existing, hex', ?_, ?_⟩
    · show lookupPost store' p.id = _
      rw [hst']
      have hself := lookup_replaceInStore_self
        (show lookupPost s.store (publishedPost p existing now).id =
          some existing from hex')
      have heq : publishedPost p existing now =
          { existing with published := true, updatedAt := now } := by
        simp [publishedPost, Post.mk.injEq, a1, a2, a3, a4, a5, a6]
      rw [← heq]
      exact hself
    · intro i hi
      show lookupPost store' i = _
      rw [hst']
      exact lookup_replaceInStore_other
        (show ¬ i = (publishedPost p existing now).id from hi)

/-- C6 (witness): the frame theorem applied to the concrete publish of
`cDuePost` at time 20 from the reachable state with the job buffered. -/
theorem c6_witness :
    ∃ q, lookupPost cQueuedState.store cDuePost.id = some q ∧
      lookupPost c6After.store cDuePost.id =
        some { q with published := true, updatedAt := 20 } ∧
      ∀ i, ¬ i = cDuePost.id →
        lookupPost c6After.store i = lookupPost cQueuedState.store i :=
  c6_publish_frame (by decide)
    (SchedReach.step
      (SchedReach.step (SchedReach.refl c1s0)
        (by
          have heq : fetchDue c1s0.store 10 = [cDuePost] := by decide
          have h := SchedStep.tick c1s0 10 rfl rfl rfl
          rw [heq] at h
          exact h))
      (SchedStep.enqueue c1s1 cDuePost [] rfl (by decide)))
    (SchedStep.workerTakeOk cQueuedState cDuePost [] 20 [cDuePublished]
      (by decide) rfl rfl)

/-- C7: if a worker's update call fails, the store is completely unchanged
(the post keeps `published = false`), the job is consumed without any retry
by the worker, the scheduler keeps running (a next tick is still enabled),
a post due at the failure time is still due at any later time, and whenever
at most 100 posts match, a later fetch re-selects the post. -/
theorem c7_failed_update {s s' : SchedState} {p : Post} {now : Nat}
    (hstep : SchedStep s (.workerTake p now false) s') :
    s'.store = s.store ∧ s'.queue = s.queue.tail ∧ s'.pending = s.pending ∧
    s'.workers = s.workers ∧ s'.waiting = s.waiting ∧
    s'.returned = s.returned ∧
    (∀ (q : Post) (now' : Nat), matchesFilter (dueFilter now) q = true →
      now ≤ now' → matchesFilter (dueFilter now') q = true) ∧
    (∀ (q : Post) (now' : Nat), q ∈ s'.store →
      matchesFilter (dueFilter now') q = true →
      (filterPosts s'.store (some (dueFilter now'))).length ≤ 100 →
      q ∈ fetchDue s'.store now') ∧
    (∀ now' : Nat, s'.pending = [] → s'.waiting = false →
      s'.returned = false →
      SchedStep s' (.tick now') { s' with pending := fetchDue s'.store now' })
    := by
  cases hstep with
  | workerTakeFail pp rest nn hwk hqq =>
    refine ⟨rfl, ?_, rfl, rfl, rfl, rfl, ?_, ?_, ?_⟩
    · rw [hqq]
      rfl
    · exact fun q now' hm hle => matchesFilter_due_mono hm hle
    · intro q now' hqs hm hc
      exact mem_getPosts_of_count_le hqs hm (by norm_num) hc
    · intro now' hp hw hr
      exact SchedStep.tick _ now' hw hr hp

/-- C7 (witness): the failed-update theorem applied to a concrete failing
update of the buffered `cDuePost`. -/
theorem c7_witness :
    c7After.store = cQueuedState.store ∧
    c7After.queue = cQueuedState.queue.tail ∧
    c7After.pending = cQueuedState.pending ∧
    c7After.workers = cQueuedState.workers ∧
    c7After.waiting = cQueuedState.waiting ∧
    c7After.returned = cQueuedState.returned ∧
    (∀ (q : Post) (now' : Nat), matchesFilter (dueFilter 20) q = true →
      20 ≤ now' → matchesFilter (dueFilter now') q = true) ∧
    (∀ (q : Post) (now' : Nat), q ∈ c7After.store →
      matchesFilter (dueFilter now') q = true →
      (filterPosts c7After.store (some (dueFilter now'))).length ≤ 100 →
      q ∈ fetchDue c7After.store now') ∧
    (∀ now' : Nat, c7After.pending = [] → c7After.waiting = false →
      c7After.returned = false →
      SchedStep c7After (.tick now')
        { c7After with pending := fetchDue c7After.store now' }) :=
  c7_failed_update
    (SchedStep.workerTakeFail cQueuedState cDuePost [] 20 (by decide) rfl)

/-- C8: an unpublished post is invisible through the public reads:
`PostService.GetByID` answers `ErrPostNotFound` for its id, and
`PostService.GetAll` never lists it. -/
theorem c8_unpublished_hidden {store : List Post} {p : Post} (limit : Int)
    (offset : Nat) (hu : uniqueIds store) (hp : p ∈ store)
    (hunpub : p.published = false) :
    serviceGetByID store p.id = .error .notFound ∧
    p ∉ (serviceGetAll store limit offset).1 := by
  have hcond : ¬ (matchesFilter { published := some true } p = true) := by
    simp [matchesFilter, hunpub]
  constructor
  · have hgp : getPost store p.id
        (some ({ published := some true } : PostFilter)) = none := by
      unfold getPost
      rw [lookupPost_of_mem hu hp]
      show (if matchesFilter { published := some true } p = true
        then some p else none) = none
      rw [if_neg hcond]
    unfold serviceGetByID
    rw [hgp]
  · intro hmem
    exact hcond (mem_of_mem_getPosts
      (show p ∈ getPosts store (some { published := some true }) limit offset
        from hmem)).2

/-- C8 (witness): the invisibility theorem applied to the concrete
unpublished post. -/
theorem c8_witness :
    serviceGetByID [cDuePost] cDuePost.id = .error .notFound ∧
    cDuePost ∉ (serviceGetAll [cDuePost] 10 0).1 :=
  c8_unpublished_hidden 10 0 (by decide) (by decide) rfl

/-- C9: after each successful enqueue into the job queue (which requires the
occupancy to be below the capacity of 1000), the backlog warning fires
exactly when the occupancy after the enqueue exceeds the threshold of 500,
and the warning has no effect on dispatch: the job is appended to the queue
either way and no other component of the state changes. -/
theorem c9_backlog_warning {s s' : SchedState} {p : Post} {w : Bool}
    (hstep : SchedStep s (.enqueue p w) s') :
    (w = true ↔ SchedulerMaxJobQueueSize < s'.queue.length) ∧
    s'.queue = s.queue ++ [p] ∧
    s.queue.length < SchedulerBufferSize ∧
    s.pending = p :: s'.pending ∧
    s'.store = s.store ∧ s'.closed = s.closed ∧ s'.cancelled = s.cancelled ∧
    s'.waiting = s.waiting ∧ s'.workers = s.workers ∧
    s'.returned = s.returned := by
  cases hstep with
  | enqueue pp rest hpend hlen =>
    refine ⟨?_, rfl, hlen, hpend, rfl, rfl, rfl, rfl, rfl, rfl⟩
    simp only [List.length_append, List.length_singleton]
    exact decide_eq_true_iff

/-- C9 (witness): the backlog-warning theorem applied to the concrete
enqueue of `cDuePost` into the empty queue (occupancy 1, no warning). -/
theorem c9_witness :
    (false = true ↔ SchedulerMaxJobQueueSize < cQueuedState.queue.length) ∧
    cQueuedState.queue = c1s1.queue ++ [cDuePost] ∧
    c1s1.queue.length < SchedulerBufferSize ∧
    c1s1.pending = cDuePost :: cQueuedState.pending ∧
    cQueuedState.store = c1s1.store ∧
    cQueuedState.closed = c1s1.closed ∧
    cQueuedState.cancelled = c1s1.cancelled ∧
    cQueuedState.waiting = c1s1.waiting ∧
    cQueuedState.workers = c1s1.workers ∧
    cQueuedState.returned = c1s1.returned :=
  c9_backlog_warning (SchedStep.enqueue c1s1 cDuePost [] rfl (by decide))

/-- C10: for `InMemoryPostRepo.GetPosts` with any filter, a non-positive
limit means "no limit" — the result is all matching posts (in `created_at`
descending order) from the offset onward — and an offset at or past the
number of matching posts yields the empty list; the function never returns
an error (its embedding is total). -/
theorem c10_getposts_paging (store : List Post) (f : Option PostFilter)
    (limit : Int) (offset : Nat) :
    (limit ≤ 0 →
      getPosts store f limit offset =
        (sortByCreatedDesc (filterPosts store f)).drop offset) ∧
    ((filterPosts store f).length ≤ offset →
      getPosts store f limit offset = []) := by
  constructor
  · intro hl
    simp only [getPosts]
    by_cases h0 : (sortByCreatedDesc (filterPosts store f)).length ≤ offset
    · rw [if_pos h0]
      exact (List.drop_eq_nil_of_le h0).symm
    · rw [if_neg h0, if_pos (Or.inl hl),
        List.take_of_length_le (Nat.le_refl _)]
  · intro hoff
    have h0 : (sortByCreatedDesc (filterPosts store f)).length ≤ offset := by
      rw [length_sortByCreatedDesc]
      exact hoff
    simp only [getPosts]
    rw [if_pos h0]

/-- C10 (witness): the paging theorem applied to a concrete store, once with
a negative limit and once with an offset past the store size. -/
theorem c10_witness :
    getPosts [cDuePost] none (-1) 0 =
      (sortByCreatedDesc (filterPosts [cDuePost] none)).drop 0 ∧
    getPosts [cDuePost] none 5 9 = [] :=
  ⟨(c10_getposts_paging [cDuePost] none (-1) 0).1 (by decide),
   (c10_getposts_paging [cDuePost] none 5 9).2 (by decide)⟩

end Blog
